import Mathlib

/-!
Verification of a small `ls`-like directory listing utility (`ls.c`).

The C program is shallowly embedded: each C function becomes a Lean
definition of the same name; system calls are modelled by an abstract
filesystem record; machine integers carrying byte counts are `Nat`
(`off_t` sizes are nonnegative in every reachable call); fallible
operations return `Option`, fatal process exits return `Except`.
-/

namespace LsProg

/-- File type as reported by the `st_mode` bits (`S_ISDIR`, `S_ISLNK`, ...). -/
inductive FType where
  | reg
  | dir
  | lnk
  | chrdev
  | blkdev
  | fifo
  | sock
deriving DecidableEq

/-- Model of `struct stat`.  Only the fields whose values the verified
claims inspect are carried (file type and size); the remaining report
columns (inode, link count, owner, group, time) are printed unconditionally
by `pr_line` and carry no claim-relevant behaviour. -/
structure StatBuf where
  ftype : FType
  size : Nat
deriving DecidableEq

/-- Abstract filesystem: the results of the system calls the program
makes.  The program changes its working directory while listing a
directory's entries, so every call takes the current working directory
together with the queried path.  `chdir` returns the new working
directory on success. -/
structure FS where
  stat : String → String → Option StatBuf
  lstat : String → String → Option StatBuf
  readlink : String → String → Option String
  opendir : String → String → Option (List String)
  chdir : String → String → Option String

/-- Command-line tokens after `getopt_long` option recognition: the four
known flags, `--help`, an unrecognized flag, or a positional file operand. -/
inductive OptTok where
  | optA
  | optAA
  | optH
  | optL
  | optHelp
  | optUnknown
  | file (s : String)
deriving DecidableEq

/-- Model of `struct arg_t` (the global `g_args`).  The entry count `fc`
is the length of `files`. -/
structure Args where
  all : Bool := false
  almost : Bool := false
  human : Bool := false
  follow : Bool := false
  files : List String := []
deriving DecidableEq

/-- Flag-processing loop of `parse_args` (ls.c:82): fold each recognized
flag into `g_args`; `--help` or an unrecognized flag makes `getopt_long`
return `?`, upon which `parse_args` returns -1 (modelled as `none`).
GNU `getopt_long` permutes `argv`, so every flag is seen regardless of its
position relative to the file operands. -/
def parseFlags : Args → List OptTok → Option Args
  | a, [] => some a
  | a, OptTok.optA :: ts => parseFlags { a with all := true } ts
  | a, OptTok.optAA :: ts => parseFlags { a with almost := true } ts
  | a, OptTok.optH :: ts => parseFlags { a with human := true } ts
  | a, OptTok.optL :: ts => parseFlags { a with follow := true } ts
  | _, OptTok.optHelp :: _ => none
  | _, OptTok.optUnknown :: _ => none
  | a, OptTok.file _ :: ts => parseFlags a ts

/-- Translation of `parse_args` (ls.c:78): process the flags, disable
`--almost-all` when `--all` is also given ("only one of two"), collect the
positional operands, and default to the single target `"."` when none are
given. -/
def parse_args (argv : List OptTok) : Option Args :=
  match parseFlags {} argv with
  | none => none
  | some a =>
    let a := if a.almost && a.all then { a with almost := false } else a
    let fs := argv.filterMap fun t =>
      match t with
      | OptTok.file s => some s
      | _ => none
    some { a with files := if fs.isEmpty then ["."] else fs }

/-- C test `file[0] == '.'`: the first byte of the name is a dot (an empty
string has the terminating NUL at index 0, which is not a dot). -/
def isDotted (file : String) : Bool :=
  match file.data with
  | [] => false
  | c :: _ => c == '.'

/-- Translation of `skip` (ls.c:276): decide whether a directory entry
name is suppressed from the output. -/
def skip (args : Args) (file : String) : Bool :=
  if args.all then false
  else if args.almost && !(file == ".") && !(file == "..") then false
  else if isDotted file then true
  else false

/-- ASCII `tolower` of a byte, as `strcasecmp` applies it in the C locale. -/
def lowerByte (c : Char) : Nat :=
  if 65 ≤ c.toNat ∧ c.toNat ≤ 90 then c.toNat + 32 else c.toNat

/-- Byte-wise core of `strcasecmp`: compare two byte strings after
lowercasing each byte; the string that ends first compares smaller (its
terminating NUL byte is below every other byte). -/
def casecmpL : List Char → List Char → Ordering
  | [], [] => Ordering.eq
  | [], _ :: _ => Ordering.lt
  | _ :: _, [] => Ordering.gt
  | a :: as, b :: bs =>
    if lowerByte a < lowerByte b then Ordering.lt
    else if lowerByte b < lowerByte a then Ordering.gt
    else casecmpL as bs

/-- Translation of `cmp` (ls.c:68): `strcasecmp` of the two names, its
sign as an `Ordering`. -/
def cmp (s1 s2 : String) : Ordering :=
  casecmpL s1.data s2.data

/-- Order in which `qsort(..., cmp)` may place `s1` before `s2`:
`strcasecmp(s1, s2) <= 0`. -/
def caseLe (s1 s2 : String) : Prop :=
  cmp s1 s2 ≠ Ordering.gt

instance : DecidableRel caseLe := fun s1 s2 =>
  inferInstanceAs (Decidable (cmp s1 s2 ≠ Ordering.gt))

/-- Translation of `sort` (ls.c:74): `qsort` with comparator `cmp`.
`qsort` is an unspecified comparison sort; it is modelled by the
deterministic comparison sort `List.insertionSort` over the same
comparator. -/
def sort (files : List String) : List String :=
  List.insertionSort caseLe files

instance : IsTotal String caseLe where
  total a b := by
    have hswap : ∀ as bs : List Char, casecmpL bs as = (casecmpL as bs).swap := by
      intro as
      induction as with
      | nil => intro bs; cases bs <;> rfl
      | cons a as ih =>
        intro bs
        cases bs with
        | nil => rfl
        | cons b bs =>
          simp only [casecmpL]
          by_cases h1 : lowerByte a < lowerByte b
          · simp [h1, Nat.lt_asymm h1, Ordering.swap]
          · by_cases h2 : lowerByte b < lowerByte a
            · simp [h1, h2, Ordering.swap]
            · simp [h1, h2, ih, Ordering.swap]
    by_cases h : casecmpL a.data b.data = Ordering.gt
    · right
      show casecmpL b.data a.data ≠ Ordering.gt
      rw [hswap, h]
      simp [Ordering.swap]
    · left
      exact h

instance : IsTrans String caseLe where
  trans a b c h1 h2 := by
    have key : ∀ as bs cs : List Char,
        casecmpL as bs ≠ Ordering.gt → casecmpL bs cs ≠ Ordering.gt →
        casecmpL as cs ≠ Ordering.gt := by
      intro as
      induction as with
      | nil =>
        intro bs cs _ _
        cases cs <;> simp [casecmpL]
      | cons a as ih =>
        intro bs cs h1 h2
        cases bs with
        | nil => simp [casecmpL] at h1
        | cons b bs =>
          cases cs with
          | nil => simp [casecmpL] at h2
          | cons c cs =>
            simp only [casecmpL] at h1 h2 ⊢
            have hba : ¬ lowerByte b < lowerByte a := by
              intro hlt
              rw [if_neg (by omega), if_pos hlt] at h1
              exact h1 rfl
            have hcb : ¬ lowerByte c < lowerByte b := by
              intro hlt
              rw [if_neg (by omega), if_pos hlt] at h2
              exact h2 rfl
            by_cases hac : lowerByte a < lowerByte c
            · rw [if_pos hac]
              simp
            · have hab : ¬ lowerByte a < lowerByte b := by omega
              have hbc : ¬ lowerByte b < lowerByte c := by omega
              rw [if_neg hab, if_neg hba] at h1
              rw [if_neg hbc, if_neg hcb] at h2
              rw [if_neg hac, if_neg (by omega)]
              exact ih bs cs h1 h2
    exact key a.data b.data c.data h1 h2

/-- Decimal digit rendered as its ASCII character. -/
def digitChar (d : Nat) : Char :=
  Char.ofNat (48 + d)

/-- Little-endian decimal digits of `n`, with explicit fuel so that the
kernel can evaluate it; `n` itself is always sufficient fuel. -/
def decAux : Nat → Nat → List Nat
  | 0, _ => []
  | fuel + 1, n => if n = 0 then [] else n % 10 :: decAux fuel (n / 10)

/-- Decimal rendering of a nonnegative integer, as `printf "%ld"` prints
it: most-significant digit first, `"0"` for zero. -/
def decRender (n : Nat) : List Char :=
  if n = 0 then ['0'] else ((decAux n n).map digitChar).reverse

/-- Right-justify in a field of width `w` by left-padding with spaces
(`printf` minimum field width; text longer than `w` is not truncated). -/
def padLeft (w : Nat) (s : List Char) : List Char :=
  List.replicate (w - s.length) ' ' ++ s

def ONE_KB : Nat := 1024

def ONE_MB : Nat := ONE_KB * ONE_KB

def ONE_GB : Nat := ONE_MB * ONE_KB

/-- Round `num / den` to the nearest integer with ties to even, which is
how correctly rounded decimal output (`printf "%.1f"`) behaves on the
exactly representable quotients `size / 2^k` the program produces. -/
def roundHalfEven (num den : Nat) : Nat :=
  let q := num / den
  let r := num % den
  if 2 * r < den then q
  else if den < 2 * r then q + 1
  else if q % 2 = 0 then q else q + 1

/-- Rendering of `printf "%6.1f"` applied to `size / den`: the quotient
scaled to one decimal place, right-justified in width 6. -/
def fmtScaled (size den : Nat) : List Char :=
  let tenths := roundHalfEven (size * 10) den
  padLeft 6 (decRender (tenths / 10) ++ ['.', digitChar (tenths % 10)])

/-- Translation of `fmt_size` (ls.c:242): first format the plain `"%7ld"`
byte count; when `--human-readable` is off that is the result, otherwise
it is overwritten with a scaled one-decimal rendering when the size
reaches 1G / 1M / 1K (checked in that order with `>=`); for sizes below
1024 the plain rendering stays. -/
def fmt_size (human : Bool) (size : Nat) : List Char :=
  let plain := padLeft 7 (decRender size)
  if human = false then plain
  else if ONE_GB ≤ size then fmtScaled size ONE_GB ++ ['G']
  else if ONE_MB ≤ size then fmtScaled size ONE_MB ++ ['M']
  else if ONE_KB ≤ size then fmtScaled size ONE_KB ++ ['K']
  else plain

/-- Read a decimal digit string back into a number: the parse direction of
the size round-trip property. -/
def parseDigits (cs : List Char) : Nat :=
  cs.foldl (fun acc c => 10 * acc + (c.toNat - 48)) 0

/-- Translation of `isdir` (ls.c:144): a plain `stat` — always following
symlinks — succeeding and reporting a directory. -/
def isdir (fs : FS) (cwd path : String) : Bool :=
  match fs.stat cwd path with
  | some buf => buf.ftype == FType.dir
  | none => false

/-- Translation of `classify` (ls.c:150): split the command-line targets,
preserving order, into directories and non-directories. -/
def classify (fs : FS) (cwd : String) : List String → List String × List String
  | [] => ([], [])
  | t :: ts =>
    let rest := classify fs cwd ts
    if isdir fs cwd t then (t :: rest.1, rest.2) else (rest.1, t :: rest.2)

/-- Translation of `get_stat` (ls.c:164): `stat` when `--dereference` is
set, otherwise `lstat`. -/
def get_stat (args : Args) (fs : FS) (cwd path : String) : Option StatBuf :=
  if args.follow then fs.stat cwd path else fs.lstat cwd path

/-- Reasons the process terminates with exit status 1.  Each constructor
is raised at exactly the corresponding site of the C source. -/
inductive Fatal where
  | noMemory
  | noCurrentDir
  | restoreWdFail
  | readlinkFail
deriving DecidableEq

/-- Observable output of a run: stdout lines and stderr reports. -/
inductive Event where
  | usageOut
  | accessError (path : String)
  | chdirError
  | header (dir : String)
  | line (sizeField : List Char) (display : String)
deriving DecidableEq

/-- One run's environment: the tokenized argv, the initial working
directory, the success of each checked allocation site, the success of
`getcwd`, and the filesystem. -/
structure World where
  argv : List OptTok
  cwd0 : String
  mallocMain : Bool
  mallocListdir : Bool
  mallocFmtName : Bool
  getcwdOk : Bool
  fs : FS

/-- Translation of `fmt_name` (ls.c:217): for a symlink, allocate a buffer
(fatal `exit(1)` on failure) and render `"<name> -> <readlink target>"`
(fatal `exit(1)` when `readlink` fails); otherwise the bare name. -/
def fmt_name (w : World) (cwd : String) (st : StatBuf) (name : String) :
    Except Fatal String :=
  if st.ftype == FType.lnk then
    if w.mallocFmtName = false then Except.error Fatal.noMemory
    else
      match w.fs.readlink cwd name with
      | none => Except.error Fatal.readlinkFail
      | some target => Except.ok (name ++ " -> " ++ target)
  else Except.ok name

/-- Translation of `pr_line` (ls.c:260): one formatted report line.  The
inode, link count, mode, owner, group and time columns are printed
unconditionally and carry no claim-relevant behaviour; the modelled line
keeps the size field and the display name. -/
def pr_line (w : World) (args : Args) (cwd : String) (st : StatBuf) (name : String) :
    Except Fatal Event :=
  (fmt_name w cwd st name).map fun disp =>
    Event.line (fmt_size args.human st.size) disp

/-- Body of the `do_files` loop (ls.c:294): the skip test first; only a
surviving entry is stat'ed and then printed, or reported as inaccessible
when the stat fails. -/
def process_file (w : World) (args : Args) (cwd file : String) :
    Except Fatal (List Event) :=
  if skip args file then Except.ok []
  else
    match get_stat args w.fs cwd file with
    | none => Except.ok [Event.accessError file]
    | some st => (pr_line w args cwd st file).map fun e => [e]

/-- Translation of `do_files` (ls.c:290). -/
def do_files (w : World) (args : Args) (cwd : String) :
    List String → Except Fatal (List Event)
  | [] => Except.ok []
  | f :: rest =>
    (process_file w args cwd f).bind fun evs =>
      (do_files w args cwd rest).map fun evs2 => evs ++ evs2

/-- Translation of `listdir` (ls.c:305): allocate the entry array (fatal
`exit(1)` on failure); on failure to open the directory report an access
error and yield no list; otherwise yield every entry the filesystem
reports.  The capacity-doubling growth loop loses no entries and is not
modelled separately. -/
def listdir (w : World) (cwd dir : String) :
    Except Fatal (List Event × Option (List String)) :=
  if w.mallocListdir = false then Except.error Fatal.noMemory
  else
    match w.fs.opendir cwd dir with
    | none => Except.ok ([Event.accessError dir], none)
    | some names => Except.ok ([], some names)

/-- Loop of `do_dirs` (ls.c:344): list each directory, sort its entries,
chdir into it (report and move on when that fails), print the header when
more than one target was given, print the entries, and chdir back to the
saved working directory — fatal `exit(1)` when the restore fails. -/
def do_dirs_loop (w : World) (args : Args) : List String → Except Fatal (List Event)
  | [] => Except.ok []
  | d :: ds =>
    (listdir w w.cwd0 d).bind fun res =>
      match res with
      | (evs, none) => (do_dirs_loop w args ds).map fun rest => evs ++ rest
      | (evs, some names) =>
        let sorted := sort names
        match w.fs.chdir w.cwd0 d with
        | none =>
          (do_dirs_loop w args ds).map fun rest => evs ++ [Event.chdirError] ++ rest
        | some cwd1 =>
          let hdr := if 1 < args.files.length then [Event.header d] else []
          (do_files w args cwd1 sorted).bind fun evs2 =>
            match w.fs.chdir cwd1 w.cwd0 with
            | none => Except.error Fatal.restoreWdFail
            | some _ =>
              (do_dirs_loop w args ds).map fun rest => evs ++ hdr ++ evs2 ++ rest

/-- Translation of `do_dirs` (ls.c:334): save the starting working
directory (fatal `exit(1)` when it cannot be determined), then process
each directory target. -/
def do_dirs (w : World) (args : Args) (dirs : List String) :
    Except Fatal (List Event) :=
  if w.getcwdOk = false then Except.error Fatal.noCurrentDir
  else do_dirs_loop w args dirs

/-- Listing phase of `main` (ls.c:393): classify the targets, sort both
parts, print the plain files, then the directories. -/
def ls_run (w : World) (args : Args) : Except Fatal (List Event) :=
  let parts := classify w.fs w.cwd0 args.files
  (do_files w args w.cwd0 (sort parts.2)).bind fun evs1 =>
    (do_dirs w args (sort parts.1)).map fun evs2 => evs1 ++ evs2

/-- Translation of `main` (ls.c:374): parse the arguments (usage text on
stdout and exit 0 on failure), allocate the classification arrays (exit 1
on failure), run the listing, and exit 0 on completion or 1 when a fatal
error aborted the run.  Output already printed before a fatal exit is not
modelled; no claim inspects it. -/
def main (w : World) : Nat × List Event :=
  match parse_args w.argv with
  | none => (0, [Event.usageOut])
  | some args =>
    if w.mallocMain = false then (1, [])
    else
      match ls_run w args with
      | Except.error _ => (1, [])
      | Except.ok evs => (0, evs)

/-- Refinement statement of the classification lookup written from the
spec's words, for comparison against the source's `isdir`: the directory
test queries metadata following symlinks exactly when
`Options.follow-symlinks` is set, i.e. it goes through `get_stat`. -/
def isdirSpecClaim (args : Args) (fs : FS) (cwd path : String) : Bool :=
  match get_stat args fs cwd path with
  | some buf => buf.ftype == FType.dir
  | none => false

/-- Filesystem on which every call fails: the base case of the concrete
worlds below. -/
def fsEmpty : FS where
  stat := fun _ _ => none
  lstat := fun _ _ => none
  readlink := fun _ _ => none
  opendir := fun _ _ => none
  chdir := fun _ _ => none

/-- Filesystem holding a single accessible regular file `.hidden` under
`/home`. -/
def fsHidden : FS :=
  { fsEmpty with
    stat := fun cwd p =>
      if cwd == "/home" && p == ".hidden" then some ⟨FType.reg, 5⟩ else none
    lstat := fun cwd p =>
      if cwd == "/home" && p == ".hidden" then some ⟨FType.reg, 5⟩ else none }

/-- Invocation `ls .hidden` from `/home`, every resource available. -/
def wHidden : World where
  argv := [OptTok.file ".hidden"]
  cwd0 := "/home"
  mallocMain := true
  mallocListdir := true
  mallocFmtName := true
  getcwdOk := true
  fs := fsHidden

/-- Filesystem where target `f` cannot be stat'ed at all and target `d`
is a directory that cannot be opened. -/
def fsPartial : FS :=
  { fsEmpty with
    stat := fun cwd p =>
      if cwd == "/" && p == "d" then some ⟨FType.dir, 0⟩ else none }

/-- Invocation `ls f d` from `/` on `fsPartial`: both per-entry
operations fail, nothing fatal happens. -/
def wPartialFail : World where
  argv := [OptTok.file "f", OptTok.file "d"]
  cwd0 := "/"
  mallocMain := true
  mallocListdir := true
  mallocFmtName := true
  getcwdOk := true
  fs := fsPartial

/-- Filesystem with one directory target `d` under `/` holding a single
entry `x` with the given `lstat` record and `readlink` answer; `chdir`
into `d` and back both succeed. -/
def fsDirX (xstat : StatBuf) (rl : Option String) : FS where
  stat := fun cwd p => if cwd == "/" && p == "d" then some ⟨FType.dir, 0⟩ else none
  lstat := fun cwd p => if cwd == "/d" && p == "x" then some xstat else none
  readlink := fun cwd p => if cwd == "/d" && p == "x" then rl else none
  opendir := fun cwd p => if cwd == "/" && p == "d" then some ["x"] else none
  chdir := fun cwd p =>
    if cwd == "/" && p == "d" then some "/d"
    else if cwd == "/d" && p == "/" then some "/" else none

/-- Invocation `ls d` from `/` where `d`'s single entry is a symlink
whose target cannot be read. -/
def wReadlinkFail : World where
  argv := [OptTok.file "d"]
  cwd0 := "/"
  mallocMain := true
  mallocListdir := true
  mallocFmtName := true
  getcwdOk := true
  fs := fsDirX ⟨FType.lnk, 3⟩ none

/-- Filesystem like `fsDirX` for a regular entry, except that changing
back out of `d` fails. -/
def fsRestoreFail : FS :=
  { fsDirX ⟨FType.reg, 3⟩ none with
    chdir := fun cwd p => if cwd == "/" && p == "d" then some "/d" else none }

/-- Invocation `ls d` where the working directory cannot be restored
after listing `d`. -/
def wRestoreFail : World := { wReadlinkFail with fs := fsRestoreFail }

/-- Invocation `ls d` where the starting working directory cannot be
determined. -/
def wNoCwd : World := { wReadlinkFail with getcwdOk := false }

/-- Invocation `ls` (default target) where the first allocation in `main`
fails. -/
def wNoMem : World := { wReadlinkFail with argv := [], mallocMain := false }

/-- Invocation `ls --bogus`: an unrecognized flag. -/
def wBadFlag : World := { wReadlinkFail with argv := [OptTok.optUnknown] }

/-- Filesystem where `p` is a symlink pointing at a directory: `stat`
(following) reports a directory, `lstat` (not following) reports the
link itself. -/
def fsLnkDir : FS :=
  { fsEmpty with
    stat := fun cwd p => if cwd == "/" && p == "p" then some ⟨FType.dir, 0⟩ else none
    lstat := fun cwd p => if cwd == "/" && p == "p" then some ⟨FType.lnk, 0⟩ else none }

theorem decAux_eq_digits : ∀ fuel n : Nat, n ≤ fuel → decAux fuel n = Nat.digits 10 n := by
  intro fuel
  induction fuel with
  | zero =>
    intro n hn
    have h0 : n = 0 := by omega
    subst h0
    simp [decAux]
  | succ fuel ih =>
    intro n hn
    by_cases h0 : n = 0
    · subst h0
      simp [decAux]
    · have hdiv : n / 10 ≤ fuel := by
        have := Nat.div_lt_self (Nat.pos_of_ne_zero h0) (by norm_num : 1 < 10)
        omega
      simp only [decAux, if_neg h0]
      rw [ih (n / 10) hdiv, ← Nat.digits_def' (by norm_num : 1 < 10) (Nat.pos_of_ne_zero h0)]

theorem parseDigits_append (xs : List Char) (c : Char) :
    parseDigits (xs ++ [c]) = 10 * parseDigits xs + (c.toNat - 48) := by
  simp [parseDigits, List.foldl_append]

theorem digitChar_toNat {d : Nat} (hd : d < 10) : (digitChar d).toNat = 48 + d := by
  interval_cases d <;> decide

theorem parseDigits_revmap : ∀ ds : List Nat, (∀ d ∈ ds, d < 10) →
    parseDigits ((ds.map digitChar).reverse) = Nat.ofDigits 10 ds := by
  intro ds
  induction ds with
  | nil => intro _; simp [parseDigits, Nat.ofDigits_nil]
  | cons d ds ih =>
    intro h
    have hd : d < 10 := h d (List.mem_cons_self _ _)
    simp only [List.map_cons, List.reverse_cons]
    rw [parseDigits_append, ih fun x hx => h x (List.mem_cons_of_mem _ hx),
      Nat.ofDigits_cons, digitChar_toNat hd]
    omega

theorem parseDigits_decRender (n : Nat) : parseDigits (decRender n) = n := by
  by_cases h0 : n = 0
  · subst h0
    decide
  · unfold decRender
    rw [if_neg h0, decAux_eq_digits n n le_rfl,
      parseDigits_revmap _ fun d hd => Nat.digits_lt_base (by norm_num) hd,
      Nat.ofDigits_digits]

theorem decRender_digitRange (n : Nat) : ∀ c ∈ decRender n, 48 ≤ c.toNat ∧ c.toNat ≤ 57 := by
  intro c hc
  unfold decRender at hc
  by_cases h0 : n = 0
  · subst h0
    rw [if_pos rfl, List.mem_singleton] at hc
    subst hc
    decide
  · rw [if_neg h0, List.mem_reverse, List.mem_map] at hc
    obtain ⟨d, hd, rfl⟩ := hc
    have hlt : d < 10 := by
      rw [decAux_eq_digits n n le_rfl] at hd
      exact Nat.digits_lt_base (by norm_num) hd
    rw [digitChar_toNat hlt]
    omega

theorem dropWhile_replicate_append (k : Nat) (l : List Char) :
    List.dropWhile (fun c => c == ' ') (List.replicate k ' ' ++ l) =
      List.dropWhile (fun c => c == ' ') l := by
  induction k with
  | zero => simp
  | succ k ih => simp [List.replicate_succ, List.dropWhile, ih]

theorem dropWhile_decRender (n : Nat) :
    List.dropWhile (fun c => c == ' ') (decRender n) = decRender n := by
  cases hE : decRender n with
  | nil => rfl
  | cons c cs =>
    have hmem : c ∈ decRender n := by
      rw [hE]
      exact List.mem_cons_self _ _
    obtain ⟨h1, h2⟩ := decRender_digitRange n c hmem
    have hne : (c == ' ') = false := by
      cases hb : c == ' '
      · rfl
      · exfalso
        have := eq_of_beq hb
        subst this
        exact absurd h1 (by decide)
    simp [List.dropWhile, hne]

/-- C9: formatting the size field with human-readable off right-justifies
the decimal byte count in width 7; stripping the space padding and parsing
the printed digits returns exactly the original byte count. -/
theorem claimC9_size_roundtrip (n : Nat) :
    parseDigits (List.dropWhile (fun c => c == ' ') (fmt_size false n)) = n := by
  show parseDigits
    (List.dropWhile (fun c => c == ' ') (padLeft 7 (decRender n))) = n
  unfold padLeft
  rw [dropWhile_replicate_append, dropWhile_decRender, parseDigits_decRender]

/-- C4: with human-readable sizes on, scaling uses binary 1024-based
thresholds compared with `>=` and one decimal place: 1024 bytes formats as
`1.0K` (right-justified `"   1.0K"`), 1023 bytes as the plain byte count
identical to the non-human path, and 2^30 bytes as `1.0G`; the unit is `G`
for sizes >= 2^30, `M` for sizes >= 2^20 below 2^30, `K` for sizes >= 2^10
below 2^20, and below 1024 the plain decimal count is kept. -/
theorem claimC4_human_size :
    fmt_size true 1024 = "   1.0K".data ∧
    fmt_size true 1023 = fmt_size false 1023 ∧
    fmt_size false 1023 = "   1023".data ∧
    fmt_size true 1073741824 = "   1.0G".data ∧
    (∀ n, ONE_GB ≤ n → (fmt_size true n).getLast? = some 'G') ∧
    (∀ n, ONE_MB ≤ n → n < ONE_GB → (fmt_size true n).getLast? = some 'M') ∧
    (∀ n, ONE_KB ≤ n → n < ONE_MB → (fmt_size true n).getLast? = some 'K') ∧
    (∀ n, n < ONE_KB → fmt_size true n = fmt_size false n) := by
  refine ⟨by decide, by decide, by decide, by decide, ?_, ?_, ?_, ?_⟩
  · intro n hn
    show ((if (true : Bool) = false then padLeft 7 (decRender n)
      else if ONE_GB ≤ n then fmtScaled n ONE_GB ++ ['G']
      else if ONE_MB ≤ n then fmtScaled n ONE_MB ++ ['M']
      else if ONE_KB ≤ n then fmtScaled n ONE_KB ++ ['K']
      else padLeft 7 (decRender n))).getLast? = some 'G'
    rw [if_neg (by simp), if_pos hn]
    exact List.getLast?_concat _
  · intro n hm hg
    show ((if (true : Bool) = false then padLeft 7 (decRender n)
      else if ONE_GB ≤ n then fmtScaled n ONE_GB ++ ['G']
      else if ONE_MB ≤ n then fmtScaled n ONE_MB ++ ['M']
      else if ONE_KB ≤ n then fmtScaled n ONE_KB ++ ['K']
      else padLeft 7 (decRender n))).getLast? = some 'M'
    rw [if_neg (by simp), if_neg (by omega), if_pos hm]
    exact List.getLast?_concat _
  · intro n hk hm
    show ((if (true : Bool) = false then padLeft 7 (decRender n)
      else if ONE_GB ≤ n then fmtScaled n ONE_GB ++ ['G']
      else if ONE_MB ≤ n then fmtScaled n ONE_MB ++ ['M']
      else if ONE_KB ≤ n then fmtScaled n ONE_KB ++ ['K']
      else padLeft 7 (decRender n))).getLast? = some 'K'
    have hMB : ONE_MB = 1048576 := by decide
    have hGB : ONE_GB = 1073741824 := by decide
    rw [if_neg (by simp), if_neg (by omega), if_neg (by omega), if_pos hk]
    exact List.getLast?_concat _
  · intro n hn
    show (if (true : Bool) = false then padLeft 7 (decRender n)
      else if ONE_GB ≤ n then fmtScaled n ONE_GB ++ ['G']
      else if ONE_MB ≤ n then fmtScaled n ONE_MB ++ ['M']
      else if ONE_KB ≤ n then fmtScaled n ONE_KB ++ ['K']
      else padLeft 7 (decRender n)) =
      (if (false : Bool) = false then padLeft 7 (decRender n)
      else if ONE_GB ≤ n then fmtScaled n ONE_GB ++ ['G']
      else if ONE_MB ≤ n then fmtScaled n ONE_MB ++ ['M']
      else if ONE_KB ≤ n then fmtScaled n ONE_KB ++ ['K']
      else padLeft 7 (decRender n))
    have hKB : ONE_KB = 1024 := by decide
    have hMB : ONE_MB = 1048576 := by decide
    have hGB : ONE_GB = 1073741824 := by decide
    rw [if_neg (by simp), if_neg (by omega), if_neg (by omega), if_neg (by omega), if_pos rfl]

/-- C8: the sorter's output is non-decreasing under the case-insensitive
byte-wise comparison (`strcasecmp` not greater), and applying the sorter
to its own output returns it unchanged. -/
theorem claimC8_sorter (l : List String) :
    List.Sorted caseLe (sort l) ∧ sort (sort l) = sort l :=
  ⟨List.sorted_insertionSort caseLe l,
    List.Sorted.insertionSort_eq (List.sorted_insertionSort caseLe l)⟩

/-- C3: the suppression predicate never suppresses under show-all;
suppresses exactly the literal "." and ".." under show-almost-all alone;
suppresses exactly the names beginning with "." by default; and when both
flags are requested, parsing disables show-almost-all, so the behaviour
equals show-all alone (which the last conjunct also states directly on the
predicate). -/
theorem claimC3_skip_policy :
    (∀ args f, args.all = true → skip args f = false) ∧
    (∀ args f, args.all = false → args.almost = true →
      (skip args f = true ↔ f = "." ∨ f = "..")) ∧
    (∀ args f, args.all = false → args.almost = false → skip args f = isDotted f) ∧
    (∀ argv a, parse_args argv = some a → a.all = true → a.almost = false) ∧
    (∀ f b1 b2, skip { all := true, almost := b1 } f =
      skip { all := true, almost := b2 } f) := by
  refine ⟨?_, ?_, ?_, ?_, ?_⟩
  · intro args f h
    simp [skip, h]
  · intro args f ha hal
    by_cases h1 : f = "."
    · subst h1
      simp only [skip, ha, hal]
      decide
    · by_cases h2 : f = ".."
      · subst h2
        simp only [skip, ha, hal]
        decide
      · have hb1 : (f == ".") = false := beq_eq_false_iff_ne.mpr h1
        have hb2 : (f == "..") = false := beq_eq_false_iff_ne.mpr h2
        simp [skip, ha, hal, hb1, hb2, h1, h2]
  · intro args f ha hal
    simp only [skip, ha, hal]
    cases hd : isDotted f <;> simp [hd]
  · intro argv a hp hall
    simp only [parse_args] at hp
    cases hpf : parseFlags {} argv with
    | none => rw [hpf] at hp; exact absurd hp (by simp)
    | some a0 =>
      rw [hpf] at hp
      simp only [Option.some.injEq] at hp
      subst hp
      by_cases hb : (a0.almost && a0.all) = true
      · rw [if_pos hb] at hall ⊢
      · rw [if_neg hb] at hall ⊢
        have h1 : a0.all = true := hall
        show a0.almost = false
        cases h2 : a0.almost
        · rfl
        · exact absurd (by simp [h1, h2]) hb
  · intro f b1 b2
    simp [skip]

/-- Witness for C3 at concrete flag settings and names. -/
theorem claimC3_skip_policy_witness :
    skip { almost := true } ".." = true ∧ skip { all := true } ".hidden" = false := by
  constructor
  · exact (claimC3_skip_policy.2.1 { almost := true } ".." rfl rfl).mpr (Or.inr rfl)
  · exact claimC3_skip_policy.1 { all := true } ".hidden" rfl

theorem pr_line_ne_accessError (w : World) (args : Args) (cwd : String)
    (st : StatBuf) (f p : String) :
    pr_line w args cwd st f ≠ Except.ok (Event.accessError p) := by
  intro h
  unfold pr_line at h
  cases hf : fmt_name w cwd st f with
  | error e => rw [hf] at h; simp [Except.map] at h
  | ok s => rw [hf] at h; simp [Except.map] at h

/-- C10: the skip test runs before any metadata query — a suppressed
entry produces no stat, no output line and no error report (the per-entry
result is empty in every world, whatever the filesystem answers), and an
access error is reported for an entry exactly when the entry is not
suppressed and its stat fails. -/
theorem claimC10_skip_before_stat :
    (∀ (w : World) (args : Args) (cwd f : String),
      skip args f = true → process_file w args cwd f = Except.ok []) ∧
    (∀ (w : World) (args : Args) (cwd f : String),
      process_file w args cwd f = Except.ok [Event.accessError f] ↔
        skip args f = false ∧ get_stat args w.fs cwd f = none) ∧
    (∀ (w : World) (args : Args) (cwd : String) (entries : List String),
      (∀ f ∈ entries, skip args f = true) →
      do_files w args cwd entries = Except.ok []) := by
  refine ⟨?_, ?_, ?_⟩
  · intro w args cwd f h
    simp [process_file, h]
  · intro w args cwd f
    constructor
    · intro h
      cases hs : skip args f
      · refine ⟨rfl, ?_⟩
        cases hg : get_stat args w.fs cwd f with
        | none => rfl
        | some st =>
          exfalso
          simp only [process_file, hs, hg, Bool.false_eq_true, if_false] at h
          cases hpl : pr_line w args cwd st f with
          | error e => rw [hpl] at h; exact absurd h (by simp [Except.map])
          | ok ev =>
            rw [hpl] at h
            simp only [Except.map, Except.ok.injEq, List.cons.injEq, and_true] at h
            exact pr_line_ne_accessError w args cwd st f f (h ▸ hpl)
      · exfalso
        simp [process_file, hs] at h
    · rintro ⟨hs, hg⟩
      simp [process_file, hs, hg]
  · intro w args cwd entries
    induction entries with
    | nil => intro _; rfl
    | cons f rest ih =>
      intro h
      have hf := h f (List.mem_cons_self _ _)
      have hrest := ih fun x hx => h x (List.mem_cons_of_mem _ hx)
      simp [do_files, process_file, hf, hrest, Except.bind, Except.map]

/-- Witness for C10: a dotted entry under default flags is suppressed and
its per-entry processing yields nothing. -/
theorem claimC10_skip_before_stat_witness :
    process_file wHidden {} "/" ".x" = Except.ok [] :=
  claimC10_skip_before_stat.1 wHidden {} "/" ".x" (by decide)

theorem classify_fst_eq (fs : FS) (cwd : String) :
    ∀ ts : List String, (classify fs cwd ts).1 = ts.filter fun t => isdir fs cwd t := by
  intro ts
  induction ts with
  | nil => rfl
  | cons t ts ih =>
    cases hd : isdir fs cwd t <;> simp [classify, List.filter_cons, hd, ih]

theorem classify_snd_eq (fs : FS) (cwd : String) :
    ∀ ts : List String, (classify fs cwd ts).2 = ts.filter fun t => !(isdir fs cwd t) := by
  intro ts
  induction ts with
  | nil => rfl
  | cons t ts ih =>
    cases hd : isdir fs cwd t <;> simp [classify, List.filter_cons, hd, ih]

theorem filter_length_partition (p : String → Bool) :
    ∀ l : List String,
      (l.filter p).length + (l.filter fun x => !(p x)).length = l.length := by
  intro l
  induction l with
  | nil => rfl
  | cons a l ih =>
    cases hp : p a <;> simp [List.filter_cons, hp] <;> omega

theorem count_filter_partition (p : String → Bool) (t : String) :
    ∀ l : List String,
      l.count t = (l.filter p).count t + (l.filter fun x => !(p x)).count t := by
  intro l
  induction l with
  | nil => rfl
  | cons a l ih =>
    rw [List.count_cons]
    cases hp : p a
    · rw [List.filter_cons_of_neg (by simp [hp]), List.filter_cons_of_pos (by simp [hp]),
        List.count_cons, ih]
      omega
    · rw [List.filter_cons_of_pos (by simp [hp]), List.filter_cons_of_neg (by simp [hp]),
        List.count_cons, ih]
      omega

/-- C5: classification strictly partitions the target list — the two
parts are order-preserving subsequences whose lengths sum to the input
length, each target lands in the directories part exactly when `isdir`
holds and in the plain part exactly when it does not, occurrence counts
are preserved, and a target whose `stat` fails is placed among the plain
files (classification itself raises no error: it is a pure function into
the two lists). -/
theorem claimC5_classify_partition (fs : FS) (cwd : String) (ts : List String) :
    ((classify fs cwd ts).1.length + (classify fs cwd ts).2.length = ts.length) ∧
    (classify fs cwd ts).1.Sublist ts ∧
    (classify fs cwd ts).2.Sublist ts ∧
    (∀ t, t ∈ (classify fs cwd ts).1 ↔ t ∈ ts ∧ isdir fs cwd t = true) ∧
    (∀ t, t ∈ (classify fs cwd ts).2 ↔ t ∈ ts ∧ isdir fs cwd t = false) ∧
    (∀ t, ts.count t = (classify fs cwd ts).1.count t + (classify fs cwd ts).2.count t) ∧
    (∀ t, t ∈ ts → fs.stat cwd t = none →
      t ∈ (classify fs cwd ts).2 ∧ t ∉ (classify fs cwd ts).1) := by
  rw [classify_fst_eq fs cwd ts, classify_snd_eq fs cwd ts]
  refine ⟨filter_length_partition _ ts, List.filter_sublist _, List.filter_sublist _,
    ?_, ?_, fun t => count_filter_partition _ t ts, ?_⟩
  · intro t
    simp [List.mem_filter]
  · intro t
    simp [List.mem_filter]
  · intro t ht hstat
    have hd : isdir fs cwd t = false := by
      unfold isdir
      rw [hstat]
    simp [List.mem_filter, ht, hd]

/-- Witness for C5: on a concrete filesystem, the inaccessible target `f`
is classified as a plain file, not a directory. -/
theorem claimC5_classify_partition_witness :
    "f" ∈ (classify fsPartial "/" ["f", "d"]).2 ∧
    "f" ∉ (classify fsPartial "/" ["f", "d"]).1 :=
  (claimC5_classify_partition fsPartial "/" ["f", "d"]).2.2.2.2.2.2 "f"
    (by decide) (by rfl)

/-- C2 (amended): `get_stat` — used for every per-entry metadata lookup —
follows symlinks exactly when `--dereference` is set: `stat` when set,
`lstat` when not.  The classification test `isdir`, however, always uses
the following lookup: for every flag setting it equals the spec's lookup
with follow forced on, independent of `args.follow`. -/
theorem claimC2_stat_choice :
    (∀ (args : Args) (fs : FS) (cwd path : String),
      args.follow = true → get_stat args fs cwd path = fs.stat cwd path) ∧
    (∀ (args : Args) (fs : FS) (cwd path : String),
      args.follow = false → get_stat args fs cwd path = fs.lstat cwd path) ∧
    (∀ (args : Args) (fs : FS) (cwd path : String),
      isdir fs cwd path = isdirSpecClaim { args with follow := true } fs cwd path) := by
  refine ⟨?_, ?_, ?_⟩
  · intro args fs cwd path h
    simp [get_stat, h]
  · intro args fs cwd path h
    simp [get_stat, h]
  · intro args fs cwd path
    simp [isdir, isdirSpecClaim, get_stat]

/-- Counterexample to C2 as stated: with follow-symlinks unset and `p` a
symlink pointing at a directory, the classification lookup still follows
the link — `isdir` reports a directory — whereas the spec's uniformly
non-following lookup reports a non-directory. -/
theorem claimC2_counterexample :
    ({} : Args).follow = false ∧
    isdir fsLnkDir "/" "p" = true ∧
    isdirSpecClaim {} fsLnkDir "/" "p" = false := by
  refine ⟨rfl, by decide, by decide⟩

/-- Witness for C2 (amended) at a concrete non-following lookup. -/
theorem claimC2_stat_choice_witness :
    get_stat {} fsLnkDir "/" "p" = fsLnkDir.lstat "/" "p" :=
  claimC2_stat_choice.2.1 {} fsLnkDir "/" "p" rfl

/-- C1 (code-bug evaluation): an explicitly named, accessible plain file
whose name begins with "." is silently suppressed.  `do_files` applies
the `skip` filter to command-line targets too, so `ls .hidden` — with
`.hidden` an accessible regular file and default flags — is classified as
a plain-file target yet stats nothing and prints nothing, where the claim
requires its formatted line to be printed. -/
theorem claimC1_explicit_dotfile_suppressed :
    fsHidden.lstat "/home" ".hidden" = some ⟨FType.reg, 5⟩ ∧
    parse_args wHidden.argv = some { files := [".hidden"] } ∧
    (classify wHidden.fs wHidden.cwd0 [".hidden"]).2 = [".hidden"] ∧
    main wHidden = (0, []) := by
  refine ⟨by decide, by decide, by decide, by decide⟩

/-- C7: when argument parsing fails on an unrecognized flag, the program
prints the usage text to standard output, performs no listing work, and
terminates with exit status 0. -/
theorem claimC7_usage_exit0 (w : World) (h : parse_args w.argv = none) :
    main w = (0, [Event.usageOut]) := by
  unfold main
  rw [h]

/-- Witness for C7: an invocation with an unrecognized flag. -/
theorem claimC7_usage_exit0_witness :
    main wBadFlag = (0, [Event.usageOut]) :=
  claimC7_usage_exit0 wBadFlag (by decide)

/-- C6: the exit status is always 0 or 1, and it is 1 exactly when the
arguments parsed and either the initial allocation failed or the listing
run aborted with one of the four fatal errors (`Fatal`: allocation
failure, getcwd failure, working-directory restore failure, readlink
failure).  A run whose only failures are per-entry — an unreachable stat,
an unopenable directory — exits 0 with the errors reported, and each
fatal cause is exhibited on a concrete world. -/
theorem claimC6_exit_codes :
    (∀ w : World, (main w).1 = 0 ∨ (main w).1 = 1) ∧
    (∀ w : World, (main w).1 = 1 ↔
      ∃ args, parse_args w.argv = some args ∧
        (w.mallocMain = false ∨ ∃ r : Fatal, ls_run w args = Except.error r)) ∧
    main wPartialFail = (0, [Event.accessError "f", Event.accessError "d"]) ∧
    (main wNoMem).1 = 1 ∧
    ls_run wNoCwd { files := ["d"] } = Except.error Fatal.noCurrentDir ∧
    (main wNoCwd).1 = 1 ∧
    ls_run wRestoreFail { files := ["d"] } = Except.error Fatal.restoreWdFail ∧
    (main wRestoreFail).1 = 1 ∧
    ls_run wReadlinkFail { files := ["d"] } = Except.error Fatal.readlinkFail ∧
    (main wReadlinkFail).1 = 1 := by
  refine ⟨?_, ?_, by decide, by decide, by rfl, by decide, by rfl, by decide, by rfl,
    by decide⟩
  · intro w
    unfold main
    cases hp : parse_args w.argv with
    | none => left; rfl
    | some args =>
      dsimp only
      by_cases hm : w.mallocMain = false
      · rw [if_pos hm]
        right
        rfl
      · rw [if_neg hm]
        cases hr : ls_run w args with
        | error r => right; rfl
        | ok evs => left; rfl
  · intro w
    unfold main
    cases hp : parse_args w.argv with
    | none =>
      dsimp only
      constructor
      · intro h
        exact absurd h (by decide)
      · rintro ⟨args, harg, _⟩
        exact absurd harg (by simp)
    | some args =>
      dsimp only
      by_cases hm : w.mallocMain = false
      · rw [if_pos hm]
        constructor
        · intro _
          exact ⟨args, rfl, Or.inl hm⟩
        · intro _
          rfl
      · rw [if_neg hm]
        cases hr : ls_run w args with
        | error r =>
          constructor
          · intro _
            exact ⟨args, rfl, Or.inr ⟨r, hr⟩⟩
          · intro _
            rfl
        | ok evs =>
          dsimp only
          constructor
          · intro h
            exact absurd h (by decide)
          · rintro ⟨args2, harg2, hOr⟩
            injection harg2 with he
            subst he
            rcases hOr with hm2 | ⟨r, hr2⟩
            · exact absurd hm2 hm
            · rw [hr] at hr2
              exact absurd hr2 (by simp)

/-- Witness for C6 at a concrete world with only per-entry failures. -/
theorem claimC6_exit_codes_witness :
    (main wPartialFail).1 = 0 ∨ (main wPartialFail).1 = 1 :=
  claimC6_exit_codes.1 wPartialFail

/-- Witness for C4 at concrete sizes. -/
theorem claimC4_human_size_witness :
    (fmt_size true 2147483648).getLast? = some 'G' ∧
    (fmt_size true 1048576).getLast? = some 'M' ∧
    (fmt_size true 2048).getLast? = some 'K' ∧
    fmt_size true 100 = fmt_size false 100 := by
  refine ⟨?_, ?_, ?_, ?_⟩
  · exact claimC4_human_size.2.2.2.2.1 2147483648 (by decide)
  · exact claimC4_human_size.2.2.2.2.2.1 1048576 (by decide) (by decide)
  · exact claimC4_human_size.2.2.2.2.2.2.1 2048 (by decide) (by decide)
  · exact claimC4_human_size.2.2.2.2.2.2.2 100 (by decide)

end LsProg
